import Mathlib

/-!
Verification development for the nanobot-turbo orchestration core.

Shallow embedding of the Python sources:
 - `src/nanobot/coordinator/coordinator_bot.py` (request analysis, task
   result/failure handling),
 - `src/nanobot/memory/session_compactor.py` (token-limit compaction),
 - `src/nanobot/heartbeat/bot_heartbeat.py` (sequential check execution,
   tick result assembly),
 - `src/nanofolks/agent/sidekicks.py` (sidekick orchestrator),
 - `src/nanofolks/agent/content_store.py` (content truncation),
 - `src/nanofolks/security/injection_detector.py` (scan verdicts),
 - `src/nanofolks/security/secret_manager.py` (secret resolution; the
   imported SymbolicConverter / KeyVault modules are not in the source
   tree, so those parts are modelled from the specification).

Python strings are embedded as Lean `String` or `List Char`; dicts keyed
by strings as association lists; async functions as pure functions (the
awaited runner / check executor becomes a function argument).
-/

/-! ## Substring search (Python `needle in haystack`) -/

/-- Membership test of `needle` as a contiguous substring of the haystack,
character-list level; mirrors Python's `in` operator on `str`. -/
def listContainsSub (needle : List Char) : List Char → Bool
  | [] => needle.isEmpty
  | c :: rest => needle.isPrefixOf (c :: rest) || listContainsSub needle rest

/-- Python `needle in hay` on strings. -/
def substrB (needle hay : String) : Bool :=
  listContainsSub needle.data hay.data

/-- ASCII lowercasing of one character (the fragment of Python's
`str.lower` exercised by the coordinator's ASCII keyword tables). -/
def lowerChar (c : Char) : Char :=
  if 'A' ≤ c && c ≤ 'Z' then Char.ofNat (c.toNat + 32) else c

/-- Python `content.lower()`, as a character list. -/
def pyLower (s : String) : List Char := s.data.map lowerChar

/-- Python `kw in content_lower` where the haystack is already lowered. -/
def kwIn (kw : String) (cl : List Char) : Bool := listContainsSub kw.data cl

/-! ## Coordinator request analysis
(`CoordinatorBot._estimate_complexity`, `_extract_domains`,
`analyze_request` in `src/nanobot/coordinator/coordinator_bot.py`). -/

/-- The `complexity_keywords` table of `_estimate_complexity`, in source
order (high, medium, low). -/
def complexityKeywords : List (String × List String) :=
  [("high", ["analyze", "design", "architect", "recommend", "comprehensive"]),
   ("medium", ["implement", "review", "check", "update", "modify"]),
   ("low", ["fetch", "list", "get", "find"])]

/-- `CoordinatorBot._estimate_complexity`: first keyword tier that matches
the lowercased content, with a length fallback. -/
def estimateComplexity (content : String) : String :=
  let cl := pyLower content
  match complexityKeywords.find? (fun lv => lv.2.any (fun kw => kwIn kw cl)) with
  | some lv => lv.1
  | none =>
    if content.data.length > 200 then "high"
    else if content.data.length > 100 then "medium"
    else "low"

/-- The `domain_keywords` table of `_extract_domains`, in source order. -/
def domainKeywords : List (String × List String) :=
  [("research", ["research", "investigate", "analyze", "study", "explore"]),
   ("development", ["build", "implement", "code", "develop", "create"]),
   ("community", ["community", "social", "engagement", "communication"]),
   ("design", ["design", "ui", "ux", "interface", "visual"]),
   ("quality", ["test", "review", "audit", "check", "verify"])]

/-- `CoordinatorBot._extract_domains`: the domains whose keyword list hits
the lowercased content, in table order (each appended at most once). -/
def extractDomains (content : String) : List String :=
  let cl := pyLower content
  domainKeywords.filterMap
    (fun d => if d.2.any (fun kw => kwIn kw cl) then some d.1 else none)

/-- The analysis dict produced by `CoordinatorBot.analyze_request`. -/
structure Analysis where
  content : String
  user_id : String
  complexity : String
  domains : List String
  requires_team : Bool
  recommended_approach : String
deriving DecidableEq, Repr

/-- `CoordinatorBot.analyze_request`: builds the analysis dict, then fixes
`requires_team` and `recommended_approach` from the domain count and
complexity. -/
def analyzeRequest (content user_id : String) : Analysis :=
  let complexity := estimateComplexity content
  let domains := extractDomains content
  if domains.length = 0 then
    ⟨content, user_id, complexity, domains, false, "ask_for_clarification"⟩
  else if domains.length = 1 then
    if complexity = "high" then
      ⟨content, user_id, complexity, domains, true, "decompose_and_delegate"⟩
    else
      ⟨content, user_id, complexity, domains, false, "route_to_specialist"⟩
  else
    ⟨content, user_id, complexity, domains, true, "parallel_delegation"⟩

/-! ## Content store truncation (`ContentStore.store` in
`src/nanofolks/agent/content_store.py`). Content is a Python string,
embedded as `List Char`. -/

/-- The marker appended by `ContentStore.store` when content is truncated:
`"\n[content truncated...]"` (23 characters). -/
def truncMarker : List Char := "\n[content truncated...]".data

/-- The content actually held in the `FetchedContent` entry built by
`ContentStore.store`: content longer than `max_content_size` is cut to the
first `max_content_size` characters and the marker is appended. -/
def storeContent (maxContentSize : Nat) (content : List Char) : List Char :=
  if content.length > maxContentSize then
    content.take maxContentSize ++ truncMarker
  else
    content

/-! ## Injection scanner (`InjectionDetector.scan` in
`src/nanofolks/security/injection_detector.py`).

The regex engine is abstracted: a scan receives, for each of the three
pattern tiers, the list of raw hits that `pattern.finditer` produced on
the text (pattern name, matched text, span), in source iteration order.
The collection logic (position de-duplication) and the verdict logic are
translated from the source. -/

/-- One raw `re` match: pattern name, matched substring, and span. -/
structure RawHit where
  pname : String
  matched : String
  startPos : Nat
  stopPos : Nat
deriving DecidableEq, Repr

/-- The `InjectionMatch` dataclass. -/
structure IMatch where
  pattern_name : String
  matched_text : String
  confidence : String
  position : Nat × Nat
deriving DecidableEq, Repr

/-- The `InjectionDetectionResult` dataclass (without the timestamp); the
`matches` field is called `imatches` here. -/
structure ScanResult where
  url : String
  confidence : String
  imatches : List IMatch
  action : String
deriving DecidableEq, Repr

/-- High-tier collection: every hit is appended, no de-duplication. -/
def highPhase (hits : List RawHit) : List IMatch :=
  hits.map (fun h => ⟨h.pname, h.matched, "high", (h.startPos, h.stopPos)⟩)

/-- Medium/low-tier collection: a hit is appended unless some already
collected match has the same span (`if not any(m.position == ...)`). -/
def addHits (tier : String) (acc : List IMatch) (hits : List RawHit) : List IMatch :=
  hits.foldl
    (fun acc h =>
      if acc.any (fun m => m.position == (h.startPos, h.stopPos)) then acc
      else acc ++ [⟨h.pname, h.matched, tier, (h.startPos, h.stopPos)⟩])
    acc

/-- The complete match collection of one scan: high hits first, then the
medium and low hits surviving position de-duplication. -/
def scanCollect (hHits mHits lHits : List RawHit) : List IMatch :=
  addHits "low" (addHits "medium" (highPhase hHits) mHits) lHits

/-- The verdict mapping at the end of `InjectionDetector.scan`. -/
def scanVerdict (url : String) (hHits mHits lHits : List RawHit) : ScanResult :=
  if (scanCollect hHits mHits lHits).any (fun m => m.confidence == "high") then
    ⟨url, "high", scanCollect hHits mHits lHits, "block"⟩
  else if (scanCollect hHits mHits lHits).any (fun m => m.confidence == "medium") then
    ⟨url, "medium", scanCollect hHits mHits lHits, "warn"⟩
  else if !(scanCollect hHits mHits lHits).isEmpty then
    ⟨url, "low", scanCollect hHits mHits lHits, "allow"⟩
  else ⟨url, "low", scanCollect hHits mHits lHits, "allow"⟩

/-- `InjectionDetector.scan`: early returns for a disabled detector or
empty text, then three collection phases and the tier-to-verdict mapping. -/
def scan (enabled : Bool) (text url : String) (hHits mHits lHits : List RawHit) :
    ScanResult :=
  if !enabled then ⟨url, "low", [], "allow"⟩
  else if text = "" then ⟨url, "low", [], "allow"⟩
  else scanVerdict url hHits mHits lHits

/-! ## Heartbeat tick results
(`BotHeartbeatService._execute_checks_sequential` and the result assembly
in `_execute_tick`, `src/nanobot/heartbeat/bot_heartbeat.py`).

`CheckResult` and `CheckDefinition` live in `nanobot/heartbeat/models.py`,
which is not in the source tree; their fields are modelled from the
specification's data model section. The awaited
`_execute_single_check` (check execution with retries) is abstracted as a
function from the check definition to its final `CheckResult`. -/

/-- Modelled from the spec: the `CheckStatus` values of `CheckResult`. -/
inductive HBStatus
  | success
  | failed
  | timeout
  | skipped
deriving DecidableEq, Repr

/-- Modelled from the spec: the `CheckResult` fields used by the tick
(name, status, success flag, error and message strings). -/
structure HBCheckResult where
  check_name : String
  status : HBStatus
  success : Bool
  error : Option String
  message : Option String
deriving DecidableEq, Repr

instance : Inhabited HBCheckResult := ⟨⟨"", HBStatus.skipped, false, none, none⟩⟩

/-- Modelled from the spec: the fields of `CheckDefinition` consulted by
the sequential executor (name and enabled flag). -/
structure HBCheckDef where
  name : String
  enabled : Bool
deriving DecidableEq, Repr

/-- `BotHeartbeatService._execute_checks_sequential` with
`stop_on_first_failure` as configured: skips disabled checks, appends
each result, and breaks after the first unsuccessful result when the
flag is set. -/
def execChecksSequential (stopOnFirstFailure : Bool)
    (exec : HBCheckDef → HBCheckResult) : List HBCheckDef → List HBCheckResult
  | [] => []
  | c :: rest =>
    if !c.enabled then execChecksSequential stopOnFirstFailure exec rest
    else
      let r := exec c
      if !r.success && stopOnFirstFailure then [r]
      else r :: execChecksSequential stopOnFirstFailure exec rest

/-- The tick's results list assembled by `_execute_tick`: the optional
HEARTBEAT.md result is prepended to the check results
(`results = [heartbeat_result] + results`). -/
def tickResults (hb : Option HBCheckResult) (seq : List HBCheckResult) :
    List HBCheckResult :=
  hb.toList ++ seq

/-- The failed results of a tick (`[r for r in results if not r.success]`). -/
def tickFailures (l : List HBCheckResult) : List HBCheckResult :=
  l.filter (fun r => !r.success)

/-! ## Coordinator task lifecycle
(`CoordinatorBot.handle_task_result` / `handle_task_failure` in
`src/nanobot/coordinator/coordinator_bot.py`).

The `Task` / `TaskStatus` classes and their `mark_completed` /
`mark_failed` methods live in `nanobot/coordinator/models.py`, which is
not in the source tree; they are modelled from the specification's data
model ("status (created → in-progress → completed | failed | cancelled)…
Terminal once completed/failed/cancelled"). -/

/-- Modelled from the spec: the `TaskStatus` values. -/
inductive PyTaskStatus
  | created
  | in_progress
  | completed
  | failed
  | cancelled
deriving DecidableEq, Repr

/-- A task status is terminal once completed, failed or cancelled. -/
def taskTerminal : PyTaskStatus → Bool
  | PyTaskStatus.completed => true
  | PyTaskStatus.failed => true
  | PyTaskStatus.cancelled => true
  | _ => false

/-- Modelled from the spec: the `Task` fields touched by the coordinator's
result and failure handlers. -/
structure PyTask where
  id : String
  title : String
  domain : String
  assigned_to : String
  status : PyTaskStatus
  result : Option String
  confidence : Rat
  learnings : List String
  follow_ups : List String
  error : Option String
deriving DecidableEq, Repr

/-- Modelled from the spec: `Task.mark_completed` — transitions to
completed with result and confidence; terminal tasks do not transition
again. -/
def markCompleted (t : PyTask) (result : String) (confidence : Rat) : PyTask :=
  if taskTerminal t.status then t
  else { t with status := PyTaskStatus.completed,
                result := some result,
                confidence := confidence }

/-- Modelled from the spec: `Task.mark_failed` — transitions to failed
with an error string; terminal tasks do not transition again. -/
def markFailed (t : PyTask) (error : String) : PyTask :=
  if taskTerminal t.status then t
  else { t with status := PyTaskStatus.failed, error := some error }

/-- The coordinator state touched by the handlers: the `_active_tasks`
dict (association list) and the keys of `_waiting_for_responses`. -/
structure CoordState where
  activeTasks : List (String × PyTask)
  waiting : List String
deriving DecidableEq, Repr

/-- Dict lookup `self._active_tasks[task_id]` (with membership test). -/
def lookupTask (m : List (String × PyTask)) (task_id : String) : Option PyTask :=
  match m.find? (fun kv => kv.1 == task_id) with
  | some kv => some kv.2
  | none => none

/-- Dict update `self._active_tasks[task_id] = t`. -/
def updateTask : List (String × PyTask) → String → PyTask → List (String × PyTask)
  | [], task_id, t => [(task_id, t)]
  | kv :: rest, task_id, t =>
    if kv.1 == task_id then (task_id, t) :: rest
    else kv :: updateTask rest task_id t

/-- `CoordinatorBot.handle_task_result`: unknown ids give False; known
ids are marked completed, optional learnings/follow-ups overwrite the
task's lists when non-empty (Python truthiness), the waiting entry is
dropped, and True is returned — regardless of the task's prior status. -/
def handleTaskResult (s : CoordState) (task_id result : String) (confidence : Rat)
    (learnings follow_ups : Option (List String)) : Bool × CoordState :=
  match lookupTask s.activeTasks task_id with
  | none => (false, s)
  | some t =>
    let t := markCompleted t result confidence
    let t := match learnings with
      | some l => if !l.isEmpty then { t with learnings := l } else t
      | none => t
    let t := match follow_ups with
      | some f => if !f.isEmpty then { t with follow_ups := f } else t
      | none => t
    (true, ⟨updateTask s.activeTasks task_id t, s.waiting.erase task_id⟩)

set_option linter.unusedVariables false in
/-- `CoordinatorBot.handle_task_failure`: unknown ids give False; known
ids are marked failed and True is returned — regardless of the task's
prior status (the optional recovery broadcast goes to the bus and does
not touch coordinator task state). -/
def handleTaskFailure (s : CoordState) (task_id error : String)
    (recovery_suggestion : Option String) : Bool × CoordState :=
  match lookupTask s.activeTasks task_id with
  | none => (false, s)
  | some t =>
    (true, ⟨updateTask s.activeTasks task_id (markFailed t error), s.waiting⟩)

/-! ## Sidekick orchestrator (`SidekickOrchestrator` in
`src/nanofolks/agent/sidekicks.py`).

Counts are Python ints (`defaultdict(int)`), embedded as association
lists of `Int` with default 0. The awaited `runner` is abstracted into a
function from the envelope to an outcome: the value it returned, the
exception it raised, a `wait_for` timeout, or a cancellation. Wall-clock
durations (`time.monotonic`) are abstracted into one `elapsedMs`
parameter used for every synthesized duration. -/

/-- `SidekickTaskEnvelope`. -/
structure SidekickTaskEnvelope where
  task_id : String
  parent_bot_id : String
  room_id : String
  goal : String
  inputs : List (String × String)
  constraints : List (String × String)
  output_format : String
  parent_is_sidekick : Bool
deriving DecidableEq, Repr

/-- `SidekickResult`. -/
structure SidekickResult where
  task_id : String
  status : String
  summary : String
  artifacts : List String
  notes : String
  duration_ms : Option Int
deriving DecidableEq, Repr

/-- Outcome of awaiting `runner(task)` under `asyncio.wait_for`. -/
inductive RunnerOutcome
  | ok (r : SidekickResult)
  | exc (msg : String)
  | timeout
  | cancelled
deriving DecidableEq, Repr

/-- The errors `run` can raise: the dedicated no-recursion `ValueError`
and `SidekickLimitError`. -/
inductive SidekickRunError
  | recursion
  | limit
deriving DecidableEq, Repr

/-- The orchestrator limits from the constructor. -/
structure SOConfig where
  max_per_bot : Int
  max_per_room : Int
  max_tokens : Int
  timeout_seconds : Int
deriving DecidableEq, Repr

/-- The mutable counts `_active_by_bot` / `_active_by_room`. -/
structure SOState where
  activeByBot : List (String × Int)
  activeByRoom : List (String × Int)
deriving DecidableEq, Repr

/-- `defaultdict(int)` read: 0 for absent keys. -/
def getCount (m : List (String × Int)) (k : String) : Int :=
  match m.find? (fun kv => kv.1 == k) with
  | some kv => kv.2
  | none => 0

/-- `defaultdict(int)` write. -/
def setCount : List (String × Int) → String → Int → List (String × Int)
  | [], k, v => [(k, v)]
  | kv :: rest, k, v => if kv.1 == k then (k, v) :: rest else kv :: setCount rest k v

/-- `SidekickOrchestrator.can_spawn`. -/
def canSpawn (cfg : SOConfig) (s : SOState) (parent_bot_id room_id : String)
    (count : Int) : Bool :=
  if count ≤ 0 then true
  else if getCount s.activeByBot parent_bot_id + count > cfg.max_per_bot then false
  else if getCount s.activeByRoom room_id + count > cfg.max_per_room then false
  else true

/-- The increment half of `SidekickOrchestrator._reserve` (the guard is
checked by the caller). -/
def reserveInc (s : SOState) (parent_bot_id room_id : String) (count : Int) : SOState :=
  ⟨setCount s.activeByBot parent_bot_id (getCount s.activeByBot parent_bot_id + count),
   setCount s.activeByRoom room_id (getCount s.activeByRoom room_id + count)⟩

/-- `SidekickOrchestrator._release`: decrements clamped at zero. -/
def release (s : SOState) (parent_bot_id room_id : String) (count : Int) : SOState :=
  ⟨setCount s.activeByBot parent_bot_id
     (max 0 (getCount s.activeByBot parent_bot_id - count)),
   setCount s.activeByRoom room_id
     (max 0 (getCount s.activeByRoom room_id - count))⟩

/-- Releases a list of per-task reservations, one slot each. -/
def releaseMany (s : SOState) (pairs : List (String × String)) : SOState :=
  pairs.foldl (fun s br => release s br.1 br.2 1) s

/-- The reservation loop at the top of `run`: one slot per task,
rolling back the already reserved slots (in reservation order) and
re-raising `SidekickLimitError` on the first failure. -/
def reserveGo (cfg : SOConfig) (s : SOState) (reserved : List (String × String)) :
    List SidekickTaskEnvelope → Except SOState SOState
  | [] => Except.ok s
  | t :: rest =>
    if canSpawn cfg s t.parent_bot_id t.room_id 1 then
      reserveGo cfg (reserveInc s t.parent_bot_id t.room_id 1)
        ((t.parent_bot_id, t.room_id) :: reserved) rest
    else
      Except.error (releaseMany s reserved.reverse)

/-- `run._run_one`: awaits the runner under the timeout and converts a
timeout, a cancellation or an exception into a failed/timeout result
carrying the envelope's task id; a returned result gets the measured
duration when it has none. -/
def runOne (t : SidekickTaskEnvelope) (outcome : RunnerOutcome)
    (elapsedMs : Int) : SidekickResult :=
  match outcome with
  | RunnerOutcome.ok r =>
    if r.duration_ms = none then { r with duration_ms := some elapsedMs } else r
  | RunnerOutcome.timeout =>
    ⟨t.task_id, "timeout", "", [], "Timed out", some elapsedMs⟩
  | RunnerOutcome.cancelled =>
    ⟨t.task_id, "failed", "", [], "Cancelled", some elapsedMs⟩
  | RunnerOutcome.exc msg =>
    ⟨t.task_id, "failed", "", [], msg, some elapsedMs⟩

/-- `SidekickOrchestrator.run`: empty input short-circuits; any
`parent_is_sidekick` envelope raises the dedicated `ValueError` before
any reservation; otherwise slots are reserved per task (rolling back and
raising `SidekickLimitError` on failure), every task runs through
`_run_one` (which never lets an exception escape), and the `finally`
block releases one slot per task. -/
def run (cfg : SOConfig) (s : SOState) (tasks : List SidekickTaskEnvelope)
    (runner : SidekickTaskEnvelope → RunnerOutcome) (elapsedMs : Int) :
    Except SidekickRunError (List SidekickResult) × SOState :=
  if tasks.isEmpty then (Except.ok [], s)
  else if tasks.any (fun t => t.parent_is_sidekick) then
    (Except.error SidekickRunError.recursion, s)
  else
    match reserveGo cfg s [] tasks with
    | Except.error s1 => (Except.error SidekickRunError.limit, s1)
    | Except.ok s1 =>
      (Except.ok (tasks.map (fun t => runOne t (runner t) elapsedMs)),
       releaseMany s1 (tasks.map (fun t => (t.parent_bot_id, t.room_id))))

/-- One primitive slot operation performed by `run` on the counts: a
guarded single-slot reservation (a failed guard raises and leaves the
counts unchanged) or a single-slot release. `can_spawn` itself never
mutates the counts. -/
inductive SOOp
  | reserveOp (parent_bot_id room_id : String)
  | releaseOp (parent_bot_id room_id : String)
deriving DecidableEq, Repr

/-- Applies one primitive slot operation. -/
def applySOOp (cfg : SOConfig) (s : SOState) : SOOp → SOState
  | SOOp.reserveOp b r =>
    if canSpawn cfg s b r 1 then reserveInc s b r 1 else s
  | SOOp.releaseOp b r => release s b r 1

/-- Applies a sequence of primitive slot operations. -/
def applySOOps (cfg : SOConfig) (ops : List SOOp) (s : SOState) : SOState :=
  ops.foldl (applySOOp cfg) s

/-- Decidable form of the cap invariant: nonnegative limits and every
recorded count within its limit (absent keys count 0). -/
def soInv (cfg : SOConfig) (s : SOState) : Bool :=
  decide (0 ≤ cfg.max_per_bot) && decide (0 ≤ cfg.max_per_room) &&
  s.activeByBot.all (fun kv => decide (kv.2 ≤ cfg.max_per_bot)) &&
  s.activeByRoom.all (fun kv => decide (kv.2 ≤ cfg.max_per_room))

/-! ## Token-limit session compaction
(`TokenLimitCompactionMode.compact` and `_is_safe_boundary` in
`src/nanobot/memory/session_compactor.py`).

Messages are Python dicts with a `role` string and a `content` that is
either a plain string or a list of content blocks; blocks other than
`tool_use` / `tool_result` are embedded as `text`. Token counting only
feeds the stats dict, not the truncation decision, and is omitted. The
mode never consults `preserve_tool_chains`; boundary safety is always
checked. -/

/-- A content block of a message. -/
inductive CBlock
  | text (s : String)
  | tool_use (id : String)
  | tool_result (tool_use_id : String)
deriving DecidableEq, Repr

/-- Message content: a plain string or a block list. -/
inductive MContent
  | str (s : String)
  | blocks (bs : List CBlock)
deriving DecidableEq, Repr

/-- A chat message (`{"role": ..., "content": ...}`). -/
structure CMessage where
  role : String
  content : MContent
deriving DecidableEq, Repr

instance : Inhabited CMessage := ⟨⟨"", MContent.str ""⟩⟩

/-- The ids of the `tool_use` blocks of a message. -/
def toolUseIds (m : CMessage) : List String :=
  match m.content with
  | MContent.str _ => []
  | MContent.blocks bs =>
    bs.filterMap (fun b => match b with
      | CBlock.tool_use i => some i
      | _ => none)

/-- The `tool_use_id`s of the `tool_result` blocks of a message. -/
def toolResultIds (m : CMessage) : List String :=
  match m.content with
  | MContent.str _ => []
  | MContent.blocks bs =>
    bs.filterMap (fun b => match b with
      | CBlock.tool_result i => some i
      | _ => none)

/-- The matching step of `_is_safe_boundary`: a user message holding a
`tool_result` block with the given `tool_use_id`. -/
def containsUserResult (tid : String) (m : CMessage) : Bool :=
  m.role == "user" && (toolResultIds m).contains tid

/-- A matching `tool_result` somewhere in a message list. -/
def resultInSuffix (tid : String) (l : List CMessage) : Bool :=
  l.any (containsUserResult tid)

/-- The inner loop of `_is_safe_boundary`: a matching `tool_result` in a
user message at an index strictly after `idx`. -/
def hasToolResultAfter (ms : List CMessage) (idx : Nat) (tid : String) : Bool :=
  resultInSuffix tid (ms.drop (idx + 1))

/-- `TokenLimitCompactionMode._is_safe_boundary`. -/
def isSafeBoundary (ms : List CMessage) (idx : Nat) : Bool :=
  let msg := ms.getD idx default
  if msg.role != "assistant" then false
  else
    match msg.content with
    | MContent.str _ => true
    | MContent.blocks bs =>
      (bs.filterMap (fun b => match b with
        | CBlock.tool_use i => some i
        | _ => none)).all (hasToolResultAfter ms idx)

/-- The backwards scan of `compact`: the largest index `≤ start` holding
an assistant message that is a safe boundary. -/
def findSafeBoundary (ms : List CMessage) : Nat → Option Nat
  | 0 =>
    if (ms.getD 0 default).role == "assistant" && isSafeBoundary ms 0 then some 0
    else none
  | i + 1 =>
    if (ms.getD (i + 1) default).role == "assistant" && isSafeBoundary ms (i + 1) then
      some (i + 1)
    else findSafeBoundary ms i

/-- `TokenLimitCompactionMode.compact` (the message list it returns;
token statistics omitted): short lists are returned whole, otherwise the
list is truncated at the safe boundary found scanning backwards from
`len - min_messages`, falling back to `len - min_messages` itself. -/
def compactTokenLimit (ms : List CMessage) (min_messages : Nat) : List CMessage :=
  if ms.length ≤ min_messages then ms
  else
    let start := ms.length - min_messages
    let sb := (findSafeBoundary ms start).getD (ms.length - min_messages)
    ms.drop sb

/-- A message list is well formed when every `tool_use` block is answered
by a matching `tool_result` in a later user message. -/
def wellFormedMessages (ms : List CMessage) : Bool :=
  (List.range ms.length).all
    (fun i => (toolUseIds (ms.getD i default)).all (hasToolResultAfter ms i))

/-- A matching `tool_result` block anywhere in a message list (the
claim's notion of the result being present in the output). -/
def resultPresent (tid : String) (l : List CMessage) : Bool :=
  l.any (fun m => (toolResultIds m).contains tid)

/-- The claim's pairing property of an output list: every `tool_use`
block has its matching `tool_result` present. -/
def toolPairingOk (l : List CMessage) : Bool :=
  (List.range l.length).all
    (fun i => (toolUseIds (l.getD i default)).all (fun tid => resultPresent tid l))

/-! ## Secret resolution
(`SecretManager` in `src/nanofolks/security/secret_manager.py`).

`SecretManager.resolve_for_execution` and `convert_to_symbolic` are in
the source tree, but they delegate to `SymbolicConverter` and `KeyVault`
(`nanofolks/security/symbolic_converter.py` / `keyvault.py`), which are
not; those delegates are modelled from the specification: symbolic
references have the shape of two opening braces, a name matching
`[a-z0-9_-]+`, and two closing braces; `convert_to_symbolic` scans the
text left to right and rewrites each literal secret value known to the
store into its reference; resolution scans left to right and substitutes
each reference whose name the store knows, leaving the rest verbatim,
with a secret-store lookup of the whole value and a literal fallback
behind it. Texts are `List Char`; the store is an association list of
key/value strings (the session table is empty: no session id is passed).
The recursions carry an explicit fuel, instantiated with the input
length, so that every function computes by kernel reduction. -/

/-- A character allowed in a symbolic-reference name (`[a-z0-9_-]`). -/
def validKeyChar (c : Char) : Bool :=
  ('a' ≤ c && c ≤ 'z') || ('0' ≤ c && c ≤ '9') || c == '_' || c == '-'

/-- Modelled from the spec: a well-formed secret key (non-empty,
characters from `[a-z0-9_-]`). -/
def validKey (k : String) : Bool :=
  !k.data.isEmpty && k.data.all validKeyChar

/-- The symbolic reference text for a key: two opening braces, the key,
two closing braces. -/
def refOf (k : String) : List Char :=
  '\x7b' :: '\x7b' :: (k.data ++ ['\x7d', '\x7d'])

/-- Modelled from the spec: recognises a symbolic reference at the head
of the text, returning its name and the remainder. -/
def parseRef (s : List Char) : Option (List Char × List Char) :=
  match s with
  | '\x7b' :: '\x7b' :: rest =>
    let name := rest.takeWhile validKeyChar
    if name.isEmpty then none
    else
      match rest.drop name.length with
      | '\x7d' :: '\x7d' :: tail => some (name, tail)
      | _ => none
  | _ => none

/-- Modelled from the spec: `is_symbolic_ref` — the text holds a symbolic
reference at some position. -/
def containsRef : List Char → Bool
  | [] => false
  | c :: rest => (parseRef (c :: rest)).isSome || containsRef rest

/-- Modelled from the spec: the scan of `convert_to_symbolic` with
explicit fuel — at each position the first store entry whose (non-empty)
literal value starts here is rewritten to its symbolic reference. -/
def convertFuel (store : List (String × String)) : Nat → List Char → List Char
  | 0, s => s
  | n + 1, s =>
    if s.isEmpty then s
    else
      match store.find? (fun kv => !kv.2.data.isEmpty && kv.2.data.isPrefixOf s) with
      | some kv => refOf kv.1 ++ convertFuel store n (s.drop kv.2.data.length)
      | none => s.take 1 ++ convertFuel store n (s.drop 1)

/-- Modelled from the spec: `SecretManager.convert_to_symbolic` (no
session scope). -/
def convertToSymbolic (store : List (String × String)) (t : List Char) : List Char :=
  convertFuel store t.length t

/-- Modelled from the spec: the scan of symbolic resolution with explicit
fuel — at each position the first store entry whose reference starts
here is substituted by its value; unknown references and plain text pass
through. -/
def resolveFuel (store : List (String × String)) : Nat → List Char → List Char
  | 0, s => s
  | n + 1, s =>
    if s.isEmpty then s
    else
      match store.find? (fun kv => (refOf kv.1).isPrefixOf s) with
      | some kv => kv.2.data ++ resolveFuel store n (s.drop (refOf kv.1).length)
      | none => s.take 1 ++ resolveFuel store n (s.drop 1)

/-- Modelled from the spec: `resolve_symbolic` — substitutes when the
value holds a symbolic reference, nil otherwise. -/
def resolveSymbolic (store : List (String × String)) (s : List Char) :
    Option (List Char) :=
  if containsRef s then some (resolveFuel store s.length s) else none

/-- Modelled from the spec: `KeyVault.get_for_execution` — a secret-store
lookup of the whole value, falling back to the literal value. -/
def vaultGetForExecution (store : List (String × String)) (s : List Char) : List Char :=
  match store.find? (fun kv => kv.1.data == s) with
  | some kv => kv.2.data
  | none => s

/-- `SecretManager.resolve_for_execution` (from the source): empty values
pass through; a symbolic value is resolved and returned when the
resolution is truthy; otherwise the keyvault lookup with literal
fallback. -/
def resolveForExecution (store : List (String × String)) (value : List Char) :
    List Char :=
  if value.isEmpty then value
  else if containsRef value then
    match resolveSymbolic store value with
    | some r => if r.isEmpty then vaultGetForExecution store value else r
    | none => vaultGetForExecution store value
  else vaultGetForExecution store value

/-- The 12-message scenario of the specification: message 7 (0-based) is
an assistant message with one `tool_use`, answered by the `tool_result`
at message 8. -/
def exCompactMessages : List CMessage :=
  [⟨"user", MContent.str "q1"⟩,
   ⟨"assistant", MContent.str "a1"⟩,
   ⟨"user", MContent.str "q2"⟩,
   ⟨"assistant", MContent.str "a2"⟩,
   ⟨"user", MContent.str "q3"⟩,
   ⟨"assistant", MContent.str "a3"⟩,
   ⟨"user", MContent.str "q4"⟩,
   ⟨"assistant", MContent.blocks [CBlock.text "using the tool", CBlock.tool_use "t1"]⟩,
   ⟨"user", MContent.blocks [CBlock.tool_result "t1"]⟩,
   ⟨"assistant", MContent.str "a5"⟩,
   ⟨"user", MContent.str "q6"⟩,
   ⟨"assistant", MContent.str "a6"⟩]

/-! ## Theorems -/

/-- Claim C7: `analyze_request` on the text
"please analyze the sales data and design a dashboard" returns
complexity high, domains research and design, requires_team true, and
recommended approach parallel_delegation. -/
theorem c7_analyze_request_routing :
    analyzeRequest "please analyze the sales data and design a dashboard" "user" =
      ⟨"please analyze the sales data and design a dashboard", "user",
        "high", ["research", "design"], true, "parallel_delegation"⟩ := by
  decide

/-- Claim C8 counterexample: with `max_content_size = 5`, storing a
6-character content leaves an entry of 28 characters (the 23-character
truncation marker is appended after the cut), so the stored content is
not bounded by `max_content_size`. -/
theorem c8_claim_counterexample :
    ¬ ((storeContent 5 (List.replicate 6 'a')).length ≤ 5) := by
  decide

/-- Claim C8 (amended): the stored content has length at most
`max_content_size + 23`; content within the cap is kept verbatim, longer
content is cut to the first `max_content_size` characters with the fixed
23-character truncation marker appended. -/
theorem c8_store_truncation (maxContentSize : Nat) (content : List Char) :
    (storeContent maxContentSize content).length ≤ maxContentSize + 23 ∧
    (content.length ≤ maxContentSize → storeContent maxContentSize content = content) ∧
    (content.length > maxContentSize →
      storeContent maxContentSize content = content.take maxContentSize ++ truncMarker) := by
  refine ⟨?_, ?_, ?_⟩
  · unfold storeContent
    split
    · have hm : truncMarker.length = 23 := by decide
      have ht : (content.take maxContentSize).length ≤ maxContentSize := by
        simp [List.length_take]
      simp only [List.length_append, hm]
      omega
    · omega
  · intro h
    unfold storeContent
    split
    · omega
    · rfl
  · intro h
    unfold storeContent
    split
    · rfl
    · omega

/-- Claim C8 witness: the amended theorem applied at
`max_content_size = 5` and a 6-character content. -/
theorem c8_store_truncation_witness :
    6 > 5 ∧
    storeContent 5 (List.replicate 6 'a') =
      (List.replicate 6 'a').take 5 ++ truncMarker :=
  ⟨by decide,
   (c8_store_truncation 5 (List.replicate 6 'a')).2.2 (by decide)⟩

/-- A high-tier match is collected iff the high pattern list hit at all. -/
theorem highPhase_any_high (hits : List RawHit) :
    (highPhase hits).any (fun m => m.confidence == "high") = !hits.isEmpty := by
  induction hits with
  | nil => rfl
  | cons h hs ih => simp [highPhase, List.any_map] at ih ⊢

/-- The de-duplicating phases never add a match of a different tier. -/
theorem addHits_any_ne (tier c : String) (hne : tier ≠ c) (hits : List RawHit) :
    ∀ acc : List IMatch,
      (addHits tier acc hits).any (fun m => m.confidence == c) =
        acc.any (fun m => m.confidence == c) := by
  induction hits with
  | nil => intro acc; rfl
  | cons h hs ih =>
    intro acc
    show (addHits tier (if acc.any (fun m => m.position == (h.startPos, h.stopPos))
        then acc else acc ++ [⟨h.pname, h.matched, tier, (h.startPos, h.stopPos)⟩]) hs).any
        (fun m => m.confidence == c) = _
    rw [ih]
    split
    · rfl
    · have : (tier == c) = false := by
        simpa using hne
      simp [List.any_append, this]

/-- The de-duplicating phases preserve any already collected evidence. -/
theorem addHits_any_mono (tier : String) (p : IMatch → Bool) (hits : List RawHit) :
    ∀ acc : List IMatch, acc.any p = true → (addHits tier acc hits).any p = true := by
  induction hits with
  | nil => intro acc h; exact h
  | cons h hs ih =>
    intro acc hacc
    show (addHits tier (if acc.any (fun m => m.position == (h.startPos, h.stopPos))
        then acc else acc ++ [⟨h.pname, h.matched, tier, (h.startPos, h.stopPos)⟩]) hs).any p = true
    apply ih
    split
    · exact hacc
    · simp [List.any_append, hacc]

/-- Starting from an empty collection, a non-empty hit list contributes a
match of its own tier. -/
theorem addHits_nonempty_self (tier : String) (hits : List RawHit) (hne : hits ≠ []) :
    (addHits tier [] hits).any (fun m => m.confidence == tier) = true := by
  match hits with
  | h :: hs =>
    show (addHits tier (if ([] : List IMatch).any (fun m => m.position == (h.startPos, h.stopPos))
        then [] else [] ++ [⟨h.pname, h.matched, tier, (h.startPos, h.stopPos)⟩]) hs).any
        (fun m => m.confidence == tier) = true
    apply addHits_any_mono
    simp

/-- Claim C5: for an enabled detector and non-empty text, the scan's
action and overall confidence are the tier-to-verdict mapping of the
strongest tier with a raw pattern hit — high gives block, medium gives
warn, low or no hit gives allow, with confidence equal to that tier (low
when nothing hits). -/
theorem c5_scan_strongest_tier (text url : String) (hHits mHits lHits : List RawHit)
    (he : text ≠ "") :
    (hHits ≠ [] →
      (scan true text url hHits mHits lHits).confidence = "high" ∧
      (scan true text url hHits mHits lHits).action = "block") ∧
    (hHits = [] → mHits ≠ [] →
      (scan true text url hHits mHits lHits).confidence = "medium" ∧
      (scan true text url hHits mHits lHits).action = "warn") ∧
    (hHits = [] → mHits = [] →
      (scan true text url hHits mHits lHits).confidence = "low" ∧
      (scan true text url hHits mHits lHits).action = "allow") := by
  have hscan : scan true text url hHits mHits lHits = scanVerdict url hHits mHits lHits := by
    unfold scan
    rw [if_neg (by simp), if_neg he]
  rw [hscan]
  refine ⟨?_, ?_, ?_⟩
  · intro hH
    have hhigh : (scanCollect hHits mHits lHits).any
        (fun m => m.confidence == "high") = true := by
      unfold scanCollect
      apply addHits_any_mono
      apply addHits_any_mono
      rw [highPhase_any_high]
      simpa using hH
    unfold scanVerdict
    rw [if_pos hhigh]
    exact ⟨rfl, rfl⟩
  · intro hH hM
    have hhigh : (scanCollect hHits mHits lHits).any
        (fun m => m.confidence == "high") = false := by
      unfold scanCollect
      rw [addHits_any_ne _ _ (by decide), addHits_any_ne _ _ (by decide)]
      rw [highPhase_any_high]
      simp [hH]
    have hmed : (scanCollect hHits mHits lHits).any
        (fun m => m.confidence == "medium") = true := by
      unfold scanCollect
      apply addHits_any_mono
      subst hH
      exact addHits_nonempty_self "medium" mHits hM
    unfold scanVerdict
    rw [if_neg (by simp [hhigh]), if_pos hmed]
    exact ⟨rfl, rfl⟩
  · intro hH hM
    subst hH hM
    have hhigh : (scanCollect [] [] lHits).any
        (fun m => m.confidence == "high") = false := by
      unfold scanCollect
      rw [addHits_any_ne _ _ (by decide)]
      rfl
    have hmed : (scanCollect [] [] lHits).any
        (fun m => m.confidence == "medium") = false := by
      unfold scanCollect
      rw [addHits_any_ne _ _ (by decide)]
      rfl
    unfold scanVerdict
    rw [if_neg (by simp [hhigh]), if_neg (by simp [hmed])]
    split
    · exact ⟨rfl, rfl⟩
    · exact ⟨rfl, rfl⟩

/-- Claim C5 witness: one medium-tier raw hit (the `task_reassignment`
pattern on "your task is to ...") yields a warn verdict with medium
confidence. -/
theorem c5_scan_strongest_tier_witness :
    ("your task is to reply with OK" ≠ "") ∧
    (scan true "your task is to reply with OK" "http://x" []
        [⟨"task_reassignment", "your task is to", 0, 15⟩] []).confidence = "medium" ∧
    (scan true "your task is to reply with OK" "http://x" []
        [⟨"task_reassignment", "your task is to", 0, 15⟩] []).action = "warn" :=
  ⟨by decide,
   ((c5_scan_strongest_tier "your task is to reply with OK" "http://x" []
        [⟨"task_reassignment", "your task is to", 0, 15⟩] [] (by decide)).2.1
      rfl (by decide)).1,
   ((c5_scan_strongest_tier "your task is to reply with OK" "http://x" []
        [⟨"task_reassignment", "your task is to", 0, 15⟩] [] (by decide)).2.1
      rfl (by decide)).2⟩

/-- Shape of the sequential executor's output under
`stop_on_first_failure`: either every result succeeded, or the list is a
run of successes closed by a single failure. -/
theorem execChecksSequential_shape (exec : HBCheckDef → HBCheckResult) :
    ∀ checks : List HBCheckDef,
      (∀ r ∈ execChecksSequential true exec checks, r.success = true) ∨
      (∃ pre r, execChecksSequential true exec checks = pre ++ [r] ∧
        (∀ x ∈ pre, x.success = true) ∧ r.success = false) := by
  intro checks
  induction checks with
  | nil => left; intro r hr; simp [execChecksSequential] at hr
  | cons c rest ih =>
    by_cases hc : c.enabled
    · have hstep : execChecksSequential true exec (c :: rest) =
          (if !(exec c).success && true then [exec c]
           else exec c :: execChecksSequential true exec rest) := by
        simp [execChecksSequential, hc]
      by_cases hr : (exec c).success
      · have : execChecksSequential true exec (c :: rest) =
            exec c :: execChecksSequential true exec rest := by
          rw [hstep, if_neg (by simp [hr])]
        rcases ih with hall | ⟨pre, r, heq, hpre, hfail⟩
        · left
          intro x hx
          rw [this] at hx
          rcases List.mem_cons.mp hx with h | h
          · rw [h]; exact hr
          · exact hall x h
        · right
          refine ⟨exec c :: pre, r, ?_, ?_, hfail⟩
          · rw [this, heq, List.cons_append]
          · intro x hx
            rcases List.mem_cons.mp hx with h | h
            · rw [h]; exact hr
            · exact hpre x h
      · right
        refine ⟨[], exec c, ?_, by simp, by simp [hr]⟩
        rw [hstep, if_pos (by simp [hr])]
        rfl
    · have : execChecksSequential true exec (c :: rest) =
          execChecksSequential true exec rest := by
        simp [execChecksSequential, hc]
      rw [this]
      exact ih

/-- Claim C4 counterexample: a tick whose HEARTBEAT.md step failed and
whose single sequential check also failed has two failed results, and
the first failure is not the last element — the prepended HEARTBEAT.md
result breaks the claimed shape. -/
theorem c4_claim_counterexample :
    ¬ ((tickFailures (tickResults
          (some ⟨"HEARTBEAT.md", HBStatus.failed, false, some "llm error", some "Execution failed"⟩)
          (execChecksSequential true
            (fun _ => ⟨"c1", HBStatus.failed, false, some "boom", none⟩)
            [⟨"c1", true⟩]))).length ≤ 1) := by
  decide

/-- Claim C4 (amended): when the HEARTBEAT.md step produced no result or
a successful one, a sequential tick with `stop_on_first_failure = true`
has at most one failed result, and a failure can only sit at the last
position. -/
theorem c4_tick_failure_last (hb : Option HBCheckResult)
    (exec : HBCheckDef → HBCheckResult) (checks : List HBCheckDef)
    (hhb : ∀ r, hb = some r → r.success = true) :
    (tickFailures (tickResults hb (execChecksSequential true exec checks))).length ≤ 1 ∧
    (∀ i (h : i < (tickResults hb (execChecksSequential true exec checks)).length),
      ((tickResults hb (execChecksSequential true exec checks))[i]).success = false →
        i + 1 = (tickResults hb (execChecksSequential true exec checks)).length) := by
  have hhbl : ∀ x ∈ hb.toList, x.success = true := by
    intro x hx
    cases hb with
    | none => simp at hx
    | some r =>
      simp at hx
      rw [hx]
      exact hhb r rfl
  rcases execChecksSequential_shape exec checks with hall | ⟨pre, r, heq, hpre, hfail⟩
  · have hl : ∀ x ∈ tickResults hb (execChecksSequential true exec checks),
        x.success = true := by
      intro x hx
      rcases List.mem_append.mp hx with h | h
      · exact hhbl x h
      · exact hall x h
    constructor
    · have : tickFailures (tickResults hb (execChecksSequential true exec checks)) = [] := by
        rw [tickFailures, List.filter_eq_nil_iff]
        intro a ha
        simp [hl a ha]
      rw [this]
      simp
    · intro i h hfalse
      have := hl _ (List.getElem_mem h)
      rw [this] at hfalse
      cases hfalse
  · have hsplit : tickResults hb (execChecksSequential true exec checks) =
        (hb.toList ++ pre) ++ [r] := by
      rw [tickResults, heq, List.append_assoc]
    have hA : ∀ x ∈ hb.toList ++ pre, x.success = true := by
      intro x hx
      rcases List.mem_append.mp hx with h | h
      · exact hhbl x h
      · exact hpre x h
    constructor
    · rw [hsplit, tickFailures, List.filter_append]
      have h1 : List.filter (fun r => !r.success) (hb.toList ++ pre) = [] := by
        rw [List.filter_eq_nil_iff]
        intro a ha
        simp [hA a ha]
      rw [h1]
      simp [hfail]
    · intro i h hfalse
      simp only [hsplit] at h hfalse
      rw [hsplit, List.length_append, List.length_singleton]
      by_cases hi : i < (hb.toList ++ pre).length
      · rw [List.getElem_append_left hi] at hfalse
        have := hA _ (List.getElem_mem hi)
        rw [this] at hfalse
        cases hfalse
      · have hlen : (hb.toList ++ pre ++ [r]).length = (hb.toList ++ pre).length + 1 := by
          simp
          omega
        omega

/-- Claim C4 witness: the amended theorem applied to a successful
HEARTBEAT.md result and one failing enabled check. -/
theorem c4_tick_failure_last_witness :
    (∀ r, (some ⟨"HEARTBEAT.md", HBStatus.success, true, none, some "No action needed"⟩ :
        Option HBCheckResult) = some r → r.success = true) ∧
    ((tickFailures (tickResults
        (some ⟨"HEARTBEAT.md", HBStatus.success, true, none, some "No action needed"⟩)
        (execChecksSequential true
          (fun _ => ⟨"c1", HBStatus.failed, false, some "boom", none⟩)
          [⟨"c1", true⟩]))).length ≤ 1 ∧
      (∀ i (h : i < (tickResults
          (some ⟨"HEARTBEAT.md", HBStatus.success, true, none, some "No action needed"⟩)
          (execChecksSequential true
            (fun _ => ⟨"c1", HBStatus.failed, false, some "boom", none⟩)
            [⟨"c1", true⟩])).length),
        ((tickResults
          (some ⟨"HEARTBEAT.md", HBStatus.success, true, none, some "No action needed"⟩)
          (execChecksSequential true
            (fun _ => ⟨"c1", HBStatus.failed, false, some "boom", none⟩)
            [⟨"c1", true⟩]))[i]).success = false →
          i + 1 = (tickResults
            (some ⟨"HEARTBEAT.md", HBStatus.success, true, none, some "No action needed"⟩)
            (execChecksSequential true
              (fun _ => ⟨"c1", HBStatus.failed, false, some "boom", none⟩)
              [⟨"c1", true⟩])).length)) :=
  ⟨fun r h => by cases h; rfl,
   c4_tick_failure_last
     (some ⟨"HEARTBEAT.md", HBStatus.success, true, none, some "No action needed"⟩)
     (fun _ => ⟨"c1", HBStatus.failed, false, some "boom", none⟩)
     [⟨"c1", true⟩]
     (fun r h => by cases h; rfl)⟩

/-- Updating a key of the active-task dict makes lookup return the new
value. -/
theorem lookupTask_updateTask_self (task_id : String) (t : PyTask) :
    ∀ m : List (String × PyTask), lookupTask (updateTask m task_id t) task_id = some t := by
  intro m
  induction m with
  | nil => simp [updateTask, lookupTask]
  | cons kv rest ih =>
    by_cases h : kv.1 = task_id
    · simp [updateTask, lookupTask, h]
    · have hb : (kv.1 == task_id) = false := by simpa using h
      simp only [updateTask, hb, Bool.false_eq_true, if_false]
      simpa [lookupTask, hb] using ih

/-- Claim C2 counterexample: replaying a result or a failure for a task
that is already completed returns True, not False — the handlers only
return False for task ids absent from `_active_tasks`, and completed
tasks are never removed from that dict. -/
theorem c2_claim_counterexample :
    (handleTaskResult ⟨[("t1", ⟨"t1", "Research pass", "research", "researcher",
        PyTaskStatus.completed, some "done", 1, [], [], none⟩)], []⟩
      "t1" "again" 1 none none).1 = true ∧
    (handleTaskFailure ⟨[("t1", ⟨"t1", "Research pass", "research", "researcher",
        PyTaskStatus.completed, some "done", 1, [], [], none⟩)], []⟩
      "t1" "boom" none).1 = true := by
  decide

/-- Claim C2 (amended): for a task that is already completed, subsequent
`handle_task_result` and `handle_task_failure` calls (with no learnings
or follow-ups supplied) return True — False is reserved for unknown task
ids — and leave the stored task unchanged, the terminal status guarding
any further transition. -/
theorem c2_completed_task_replay (s : CoordState) (task_id : String) (t : PyTask)
    (result : String) (confidence : Rat) (error : String)
    (hlook : lookupTask s.activeTasks task_id = some t)
    (hdone : t.status = PyTaskStatus.completed) :
    (handleTaskResult s task_id result confidence none none).1 = true ∧
    lookupTask (handleTaskResult s task_id result confidence none none).2.activeTasks
      task_id = some t ∧
    (handleTaskFailure s task_id error none).1 = true ∧
    lookupTask (handleTaskFailure s task_id error none).2.activeTasks task_id = some t := by
  have hmc : markCompleted t result confidence = t := by
    unfold markCompleted
    rw [hdone]
    rfl
  have hmf : markFailed t error = t := by
    unfold markFailed
    rw [hdone]
    rfl
  refine ⟨?_, ?_, ?_, ?_⟩
  · simp only [handleTaskResult, hlook]
  · simp only [handleTaskResult, hlook, hmc]
    exact lookupTask_updateTask_self task_id t s.activeTasks
  · simp only [handleTaskFailure, hlook]
  · simp only [handleTaskFailure, hlook, hmf]
    exact lookupTask_updateTask_self task_id t s.activeTasks

/-- Claim C2 witness: the amended theorem applied to a concrete state
holding one completed task. -/
theorem c2_completed_task_replay_witness :
    lookupTask (⟨[("t1", ⟨"t1", "Research pass", "research", "researcher",
        PyTaskStatus.completed, some "done", 1, [], [], none⟩)], []⟩ :
        CoordState).activeTasks "t1" =
      some ⟨"t1", "Research pass", "research", "researcher",
        PyTaskStatus.completed, some "done", 1, [], [], none⟩ ∧
    ((handleTaskResult ⟨[("t1", ⟨"t1", "Research pass", "research", "researcher",
          PyTaskStatus.completed, some "done", 1, [], [], none⟩)], []⟩
        "t1" "retry result" 1 none none).1 = true ∧
      lookupTask (handleTaskResult ⟨[("t1", ⟨"t1", "Research pass", "research",
          "researcher", PyTaskStatus.completed, some "done", 1, [], [], none⟩)], []⟩
        "t1" "retry result" 1 none none).2.activeTasks "t1" =
        some ⟨"t1", "Research pass", "research", "researcher",
          PyTaskStatus.completed, some "done", 1, [], [], none⟩ ∧
      (handleTaskFailure ⟨[("t1", ⟨"t1", "Research pass", "research", "researcher",
          PyTaskStatus.completed, some "done", 1, [], [], none⟩)], []⟩
        "t1" "late failure" none).1 = true ∧
      lookupTask (handleTaskFailure ⟨[("t1", ⟨"t1", "Research pass", "research",
          "researcher", PyTaskStatus.completed, some "done", 1, [], [], none⟩)], []⟩
        "t1" "late failure" none).2.activeTasks "t1" =
        some ⟨"t1", "Research pass", "research", "researcher",
          PyTaskStatus.completed, some "done", 1, [], [], none⟩) :=
  ⟨by decide,
   c2_completed_task_replay
     ⟨[("t1", ⟨"t1", "Research pass", "research", "researcher",
         PyTaskStatus.completed, some "done", 1, [], [], none⟩)], []⟩
     "t1"
     ⟨"t1", "Research pass", "research", "researcher",
       PyTaskStatus.completed, some "done", 1, [], [], none⟩
     "retry result" 1 "late failure" (by decide) rfl⟩

/-- A default read of a count map stays within a bound satisfied by all
entries, provided the bound admits the absent-key default 0. -/
theorem getCount_le (M : Int) (m : List (String × Int)) (k : String)
    (hM : 0 ≤ M) (hall : ∀ kv ∈ m, kv.2 ≤ M) : getCount m k ≤ M := by
  unfold getCount
  cases hf : m.find? (fun kv => kv.1 == k) with
  | some kv => exact hall kv (List.mem_of_find?_eq_some hf)
  | none => exact hM

/-- Writing an in-bound value keeps every entry of a count map in bound. -/
theorem setCount_all (P : String × Int → Bool) (k : String) (v : Int)
    (hv : P (k, v) = true) :
    ∀ m : List (String × Int), m.all P = true → (setCount m k v).all P = true := by
  intro m
  induction m with
  | nil => intro _; simpa [setCount] using hv
  | cons kv rest ih =>
    intro hm
    rw [List.all_cons, Bool.and_eq_true] at hm
    unfold setCount
    split
    · simp [List.all_cons, hv, hm.2]
    · simp [List.all_cons, hm.1, ih hm.2]

/-- Unpacks the cap invariant. -/
theorem soInv_parts (cfg : SOConfig) (s : SOState) (h : soInv cfg s = true) :
    0 ≤ cfg.max_per_bot ∧ 0 ≤ cfg.max_per_room ∧
    (∀ b, getCount s.activeByBot b ≤ cfg.max_per_bot) ∧
    (∀ r, getCount s.activeByRoom r ≤ cfg.max_per_room) := by
  unfold soInv at h
  simp only [Bool.and_eq_true, decide_eq_true_eq, List.all_eq_true] at h
  refine ⟨h.1.1.1, h.1.1.2, ?_, ?_⟩
  · intro b
    exact getCount_le _ _ _ h.1.1.1 (fun kv hkv => by
      have := h.1.2 kv hkv
      simpa using this)
  · intro r
    exact getCount_le _ _ _ h.1.1.2 (fun kv hkv => by
      have := h.2 kv hkv
      simpa using this)

/-- A successful single-slot guard gives room under both caps. -/
theorem canSpawn_one (cfg : SOConfig) (s : SOState) (b r : String)
    (hc : canSpawn cfg s b r 1 = true) :
    getCount s.activeByBot b + 1 ≤ cfg.max_per_bot ∧
    getCount s.activeByRoom r + 1 ≤ cfg.max_per_room := by
  unfold canSpawn at hc
  rw [if_neg (by omega : ¬ (1 : Int) ≤ 0)] at hc
  by_cases h1 : getCount s.activeByBot b + 1 > cfg.max_per_bot
  · rw [if_pos h1] at hc; cases hc
  · rw [if_neg h1] at hc
    by_cases h2 : getCount s.activeByRoom r + 1 > cfg.max_per_room
    · rw [if_pos h2] at hc; cases hc
    · exact ⟨by omega, by omega⟩

/-- A guarded single-slot reservation preserves the cap invariant. -/
theorem soInv_reserveInc (cfg : SOConfig) (s : SOState) (b r : String)
    (h : soInv cfg s = true) (hc : canSpawn cfg s b r 1 = true) :
    soInv cfg (reserveInc s b r 1) = true := by
  obtain ⟨hMb, hMr, _, _⟩ := soInv_parts cfg s h
  obtain ⟨hb, hr⟩ := canSpawn_one cfg s b r hc
  unfold soInv at h ⊢
  simp only [Bool.and_eq_true] at h ⊢
  refine ⟨⟨⟨h.1.1.1, h.1.1.2⟩, ?_⟩, ?_⟩
  · exact setCount_all _ _ _ (by simpa using hb) _ h.1.2
  · exact setCount_all _ _ _ (by simpa using hr) _ h.2

/-- A single-slot release preserves the cap invariant. -/
theorem soInv_release (cfg : SOConfig) (s : SOState) (b r : String)
    (h : soInv cfg s = true) : soInv cfg (release s b r 1) = true := by
  obtain ⟨hMb, hMr, hgb, hgr⟩ := soInv_parts cfg s h
  unfold soInv at h ⊢
  simp only [Bool.and_eq_true] at h ⊢
  refine ⟨⟨⟨h.1.1.1, h.1.1.2⟩, ?_⟩, ?_⟩
  · exact setCount_all _ _ _ (by simp; have := hgb b; omega) _ h.1.2
  · exact setCount_all _ _ _ (by simp; have := hgr r; omega) _ h.2

/-- Releasing any list of reservations preserves the cap invariant. -/
theorem soInv_releaseMany (cfg : SOConfig) :
    ∀ (pairs : List (String × String)) (s : SOState), soInv cfg s = true →
      soInv cfg (releaseMany s pairs) = true := by
  intro pairs
  induction pairs with
  | nil => intro s h; exact h
  | cons p rest ih =>
    intro s h
    exact ih (release s p.1 p.2 1) (soInv_release cfg s p.1 p.2 h)

/-- Every primitive slot operation preserves the cap invariant. -/
theorem soInv_applySOOp (cfg : SOConfig) (s : SOState) (op : SOOp)
    (h : soInv cfg s = true) : soInv cfg (applySOOp cfg s op) = true := by
  cases op with
  | reserveOp b r =>
    show soInv cfg (if canSpawn cfg s b r 1 then reserveInc s b r 1 else s) = true
    split
    · exact soInv_reserveInc cfg s b r h (by assumption)
    · exact h
  | releaseOp b r => exact soInv_release cfg s b r h

/-- Any sequence of primitive slot operations preserves the cap
invariant. -/
theorem soInv_applySOOps (cfg : SOConfig) :
    ∀ (ops : List SOOp) (s : SOState), soInv cfg s = true →
      soInv cfg (applySOOps cfg ops s) = true := by
  intro ops
  induction ops with
  | nil => intro s h; exact h
  | cons op rest ih =>
    intro s h
    exact ih (applySOOp cfg s op) (soInv_applySOOp cfg s op h)

/-- The reservation loop of `run` preserves the cap invariant, both when
it succeeds and when it rolls back. -/
theorem soInv_reserveGo (cfg : SOConfig) :
    ∀ (tasks : List SidekickTaskEnvelope) (s : SOState)
      (acc : List (String × String)), soInv cfg s = true →
      ∀ s1, (reserveGo cfg s acc tasks = Except.ok s1 ∨
             reserveGo cfg s acc tasks = Except.error s1) →
        soInv cfg s1 = true := by
  intro tasks
  induction tasks with
  | nil =>
    intro s acc h s1 hcase
    rcases hcase with hok | herr
    · cases hok; exact h
    · cases herr
  | cons t rest ih =>
    intro s acc h s1 hcase
    have hunf : reserveGo cfg s acc (t :: rest) =
        (if canSpawn cfg s t.parent_bot_id t.room_id 1 then
          reserveGo cfg (reserveInc s t.parent_bot_id t.room_id 1)
            ((t.parent_bot_id, t.room_id) :: acc) rest
        else Except.error (releaseMany s acc.reverse)) := rfl
    by_cases hc : canSpawn cfg s t.parent_bot_id t.room_id 1 = true
    · have hstep : reserveGo cfg s acc (t :: rest) =
          reserveGo cfg (reserveInc s t.parent_bot_id t.room_id 1)
            ((t.parent_bot_id, t.room_id) :: acc) rest := by
        rw [hunf, if_pos hc]
      rw [hstep] at hcase
      exact ih _ _ (soInv_reserveInc cfg s _ _ h hc) s1 hcase
    · have hstep : reserveGo cfg s acc (t :: rest) =
          Except.error (releaseMany s acc.reverse) := by
        rw [hunf, if_neg hc]
      rw [hstep] at hcase
      rcases hcase with hok | herr
      · cases hok
      · cases herr
        exact soInv_releaseMany cfg acc.reverse s h

/-- Claim C3: starting from counts within the caps, every sequence of the
primitive slot operations `run` performs keeps every bot's and every
room's active count within `max_per_bot` / `max_per_room`; `run` itself
returns counts satisfying the invariant; and `can_spawn` answers true
exactly when admitting `count` more sidekicks keeps both bounds. -/
theorem c3_sidekick_caps (cfg : SOConfig) (s : SOState) (hinv : soInv cfg s = true) :
    (∀ (ops : List SOOp) (b : String),
      getCount (applySOOps cfg ops s).activeByBot b ≤ cfg.max_per_bot) ∧
    (∀ (ops : List SOOp) (r : String),
      getCount (applySOOps cfg ops s).activeByRoom r ≤ cfg.max_per_room) ∧
    (∀ (tasks : List SidekickTaskEnvelope)
      (runner : SidekickTaskEnvelope → RunnerOutcome) (elapsedMs : Int),
      soInv cfg (run cfg s tasks runner elapsedMs).2 = true) ∧
    (∀ (b r : String) (c : Int), canSpawn cfg s b r c = true ↔
      (getCount s.activeByBot b + c ≤ cfg.max_per_bot ∧
       getCount s.activeByRoom r + c ≤ cfg.max_per_room)) := by
  obtain ⟨hMb, hMr, hgb, hgr⟩ := soInv_parts cfg s hinv
  refine ⟨?_, ?_, ?_, ?_⟩
  · intro ops b
    exact (soInv_parts cfg _ (soInv_applySOOps cfg ops s hinv)).2.2.1 b
  · intro ops r
    exact (soInv_parts cfg _ (soInv_applySOOps cfg ops s hinv)).2.2.2 r
  · intro tasks runner elapsedMs
    unfold run
    split
    · exact hinv
    · split
      · exact hinv
      · cases hres : reserveGo cfg s [] tasks with
        | error s1 =>
          simpa using soInv_reserveGo cfg tasks s [] hinv s1 (Or.inr hres)
        | ok s1 =>
          have h1 := soInv_reserveGo cfg tasks s [] hinv s1 (Or.inl hres)
          simpa using soInv_releaseMany cfg _ s1 h1
  · intro b r c
    unfold canSpawn
    by_cases hc : c ≤ 0
    · rw [if_pos hc]
      constructor
      · intro _
        constructor
        · have := hgb b; omega
        · have := hgr r; omega
      · intro _; rfl
    · rw [if_neg hc]
      by_cases h1 : getCount s.activeByBot b + c > cfg.max_per_bot
      · rw [if_pos h1]
        constructor
        · intro hfalse; cases hfalse
        · intro hboth; exact absurd hboth.1 (by omega)
      · rw [if_neg h1]
        by_cases h2 : getCount s.activeByRoom r + c > cfg.max_per_room
        · rw [if_pos h2]
          constructor
          · intro hfalse; cases hfalse
          · intro hboth; exact absurd hboth.2 (by omega)
        · rw [if_neg h2]
          constructor
          · intro _; exact ⟨by omega, by omega⟩
          · intro _; rfl

/-- Claim C3 witness: the theorem applied to the limits of the spec's
sidekick-cap scenario and a state with one active sidekick. -/
theorem c3_sidekick_caps_witness :
    soInv ⟨2, 3, 8000, 60⟩ ⟨[("coder", 1)], [("r1", 1)]⟩ = true ∧
    ((∀ (ops : List SOOp) (b : String),
        getCount (applySOOps ⟨2, 3, 8000, 60⟩ ops
          ⟨[("coder", 1)], [("r1", 1)]⟩).activeByBot b ≤ 2) ∧
      (∀ (ops : List SOOp) (r : String),
        getCount (applySOOps ⟨2, 3, 8000, 60⟩ ops
          ⟨[("coder", 1)], [("r1", 1)]⟩).activeByRoom r ≤ 3) ∧
      (∀ (tasks : List SidekickTaskEnvelope)
        (runner : SidekickTaskEnvelope → RunnerOutcome) (elapsedMs : Int),
        soInv ⟨2, 3, 8000, 60⟩
          (run ⟨2, 3, 8000, 60⟩ ⟨[("coder", 1)], [("r1", 1)]⟩
            tasks runner elapsedMs).2 = true) ∧
      (∀ (b r : String) (c : Int),
        canSpawn ⟨2, 3, 8000, 60⟩ ⟨[("coder", 1)], [("r1", 1)]⟩ b r c = true ↔
          (getCount (⟨[("coder", 1)], [("r1", 1)]⟩ : SOState).activeByBot b + c ≤ 2 ∧
           getCount (⟨[("coder", 1)], [("r1", 1)]⟩ : SOState).activeByRoom r + c ≤ 3))) :=
  ⟨by decide, c3_sidekick_caps ⟨2, 3, 8000, 60⟩ ⟨[("coder", 1)], [("r1", 1)]⟩ (by decide)⟩

/-- Claim C6: if any envelope carries `parent_is_sidekick = true`, `run`
raises the dedicated recursion error and the per-bot and per-room active
counts are exactly the input counts — the check fires before any slot
reservation, and the result does not depend on the runner. -/
theorem c6_no_sidekick_recursion (cfg : SOConfig) (s : SOState)
    (tasks : List SidekickTaskEnvelope)
    (runner : SidekickTaskEnvelope → RunnerOutcome) (elapsedMs : Int)
    (h : ∃ t ∈ tasks, t.parent_is_sidekick = true) :
    run cfg s tasks runner elapsedMs = (Except.error SidekickRunError.recursion, s) := by
  obtain ⟨t, ht, hflag⟩ := h
  have hne : tasks ≠ [] := by
    intro hnil
    rw [hnil] at ht
    cases ht
  have hany : tasks.any (fun t => t.parent_is_sidekick) = true :=
    List.any_eq_true.mpr ⟨t, ht, hflag⟩
  unfold run
  rw [if_neg (by simp [List.isEmpty_iff, hne]), if_pos hany]

/-- Claim C6 witness: the theorem applied to a single recursive envelope
on fresh counts. -/
theorem c6_no_sidekick_recursion_witness :
    (∃ t ∈ [(⟨"s1", "coder", "r1", "summarize", [], [], "summary", true⟩ :
        SidekickTaskEnvelope)], t.parent_is_sidekick = true) ∧
    run ⟨2, 3, 8000, 60⟩ ⟨[], []⟩
        [⟨"s1", "coder", "r1", "summarize", [], [], "summary", true⟩]
        (fun _ => RunnerOutcome.timeout) 5 =
      (Except.error SidekickRunError.recursion, ⟨[], []⟩) :=
  ⟨by decide,
   c6_no_sidekick_recursion ⟨2, 3, 8000, 60⟩ ⟨[], []⟩
     [⟨"s1", "coder", "r1", "summarize", [], [], "summary", true⟩]
     (fun _ => RunnerOutcome.timeout) 5 (by decide)⟩

/-- Claim C10 counterexample: a runner that returns a `SidekickResult`
whose `task_id` differs from the envelope's is passed through unchanged
by `run`, so the output's task id does not match the input envelope's. -/
theorem c10_claim_counterexample :
    (run ⟨1, 1, 8000, 60⟩ ⟨[], []⟩
        [⟨"a", "coder", "r1", "goal", [], [], "summary", false⟩]
        (fun _ => RunnerOutcome.ok ⟨"b", "success", "done", [], "", some 7⟩) 5).1 =
      Except.ok [⟨"b", "success", "done", [], "", some 7⟩] ∧
    ("b" : String) ≠ "a" := by
  constructor
  · rfl
  · decide

/-- Claim C10 (amended): for a non-empty, non-recursive task list whose
reservation succeeds, `run` returns (never raises) exactly one result
per envelope in input order; a timeout becomes status "timeout" and an
exception or cancellation becomes status "failed", each carrying the
envelope's task id, while a result the runner returned is passed through
with its own task id and status. -/
theorem c10_run_results (cfg : SOConfig) (s : SOState)
    (tasks : List SidekickTaskEnvelope)
    (runner : SidekickTaskEnvelope → RunnerOutcome) (elapsedMs : Int)
    (hne : tasks ≠ [])
    (hns : ∀ t ∈ tasks, t.parent_is_sidekick = false)
    (hres : ∃ s1, reserveGo cfg s [] tasks = Except.ok s1) :
    ∃ rs, (run cfg s tasks runner elapsedMs).1 = Except.ok rs ∧
      rs.length = tasks.length ∧
      ∀ i (h : i < tasks.length),
        ∃ hr : i < rs.length,
          (runner tasks[i] = RunnerOutcome.timeout →
            rs[i].status = "timeout" ∧ rs[i].task_id = tasks[i].task_id) ∧
          (∀ msg, runner tasks[i] = RunnerOutcome.exc msg →
            rs[i].status = "failed" ∧ rs[i].task_id = tasks[i].task_id) ∧
          (runner tasks[i] = RunnerOutcome.cancelled →
            rs[i].status = "failed" ∧ rs[i].task_id = tasks[i].task_id) ∧
          (∀ r, runner tasks[i] = RunnerOutcome.ok r →
            rs[i].task_id = r.task_id ∧ rs[i].status = r.status) := by
  obtain ⟨s1, hs1⟩ := hres
  have hany : tasks.any (fun t => t.parent_is_sidekick) = false := by
    rw [List.any_eq_false]
    intro t ht
    simp [hns t ht]
  have hrun : (run cfg s tasks runner elapsedMs).1 =
      Except.ok (tasks.map (fun t => runOne t (runner t) elapsedMs)) := by
    unfold run
    rw [if_neg (by simp [List.isEmpty_iff, hne]), if_neg (by simp [hany]), hs1]
  refine ⟨tasks.map (fun t => runOne t (runner t) elapsedMs), hrun, by simp, ?_⟩
  intro i h
  have hr : i < (tasks.map (fun t => runOne t (runner t) elapsedMs)).length := by
    simpa using h
  refine ⟨hr, ?_, ?_, ?_, ?_⟩
  · intro hout
    rw [List.getElem_map, hout]
    exact ⟨rfl, rfl⟩
  · intro msg hout
    rw [List.getElem_map, hout]
    exact ⟨rfl, rfl⟩
  · intro hout
    rw [List.getElem_map, hout]
    exact ⟨rfl, rfl⟩
  · intro r hout
    rw [List.getElem_map, hout]
    show (if r.duration_ms = none then { r with duration_ms := some elapsedMs }
        else r).task_id = r.task_id ∧
      (if r.duration_ms = none then { r with duration_ms := some elapsedMs }
        else r).status = r.status
    split
    · exact ⟨rfl, rfl⟩
    · exact ⟨rfl, rfl⟩

/-- Claim C10 witness: the amended theorem applied to two admitted
envelopes, one runner success (carrying the envelope's id) and one
timeout. -/
theorem c10_run_results_witness :
    ([(⟨"a", "coder", "r1", "g1", [], [], "summary", false⟩ : SidekickTaskEnvelope),
      ⟨"b", "coder", "r1", "g2", [], [], "summary", false⟩] ≠ []) ∧
    (∀ t ∈ [(⟨"a", "coder", "r1", "g1", [], [], "summary", false⟩ : SidekickTaskEnvelope),
        ⟨"b", "coder", "r1", "g2", [], [], "summary", false⟩],
      t.parent_is_sidekick = false) ∧
    (∃ rs, (run ⟨2, 3, 8000, 60⟩ ⟨[], []⟩
        [⟨"a", "coder", "r1", "g1", [], [], "summary", false⟩,
         ⟨"b", "coder", "r1", "g2", [], [], "summary", false⟩]
        (fun t => if t.task_id == "a" then
            RunnerOutcome.ok ⟨"a", "success", "done", [], "", none⟩
          else RunnerOutcome.timeout) 5).1 = Except.ok rs ∧
      rs.length = [(⟨"a", "coder", "r1", "g1", [], [], "summary", false⟩ :
          SidekickTaskEnvelope),
        ⟨"b", "coder", "r1", "g2", [], [], "summary", false⟩].length ∧
      ∀ i (h : i < [(⟨"a", "coder", "r1", "g1", [], [], "summary", false⟩ :
          SidekickTaskEnvelope),
        ⟨"b", "coder", "r1", "g2", [], [], "summary", false⟩].length),
        ∃ hr : i < rs.length,
          ((fun t => if t.task_id == "a" then
              RunnerOutcome.ok ⟨"a", "success", "done", [], "", none⟩
            else RunnerOutcome.timeout)
              [(⟨"a", "coder", "r1", "g1", [], [], "summary", false⟩ :
                  SidekickTaskEnvelope),
                ⟨"b", "coder", "r1", "g2", [], [], "summary", false⟩][i] =
              RunnerOutcome.timeout →
            rs[i].status = "timeout" ∧
            rs[i].task_id = [(⟨"a", "coder", "r1", "g1", [], [], "summary", false⟩ :
                SidekickTaskEnvelope),
              ⟨"b", "coder", "r1", "g2", [], [], "summary", false⟩][i].task_id) ∧
          (∀ msg, ((fun t => if t.task_id == "a" then
              RunnerOutcome.ok ⟨"a", "success", "done", [], "", none⟩
            else RunnerOutcome.timeout)
              [(⟨"a", "coder", "r1", "g1", [], [], "summary", false⟩ :
                  SidekickTaskEnvelope),
                ⟨"b", "coder", "r1", "g2", [], [], "summary", false⟩][i] =
              RunnerOutcome.exc msg →
            rs[i].status = "failed" ∧
            rs[i].task_id = [(⟨"a", "coder", "r1", "g1", [], [], "summary", false⟩ :
                SidekickTaskEnvelope),
              ⟨"b", "coder", "r1", "g2", [], [], "summary", false⟩][i].task_id)) ∧
          (((fun t => if t.task_id == "a" then
              RunnerOutcome.ok ⟨"a", "success", "done", [], "", none⟩
            else RunnerOutcome.timeout)
              [(⟨"a", "coder", "r1", "g1", [], [], "summary", false⟩ :
                  SidekickTaskEnvelope),
                ⟨"b", "coder", "r1", "g2", [], [], "summary", false⟩][i] =
              RunnerOutcome.cancelled →
            rs[i].status = "failed" ∧
            rs[i].task_id = [(⟨"a", "coder", "r1", "g1", [], [], "summary", false⟩ :
                SidekickTaskEnvelope),
              ⟨"b", "coder", "r1", "g2", [], [], "summary", false⟩][i].task_id)) ∧
          (∀ r, ((fun t => if t.task_id == "a" then
              RunnerOutcome.ok ⟨"a", "success", "done", [], "", none⟩
            else RunnerOutcome.timeout)
              [(⟨"a", "coder", "r1", "g1", [], [], "summary", false⟩ :
                  SidekickTaskEnvelope),
                ⟨"b", "coder", "r1", "g2", [], [], "summary", false⟩][i] =
              RunnerOutcome.ok r →
            rs[i].task_id = r.task_id ∧ rs[i].status = r.status))) :=
  ⟨by decide, by decide,
   c10_run_results ⟨2, 3, 8000, 60⟩ ⟨[], []⟩
     [⟨"a", "coder", "r1", "g1", [], [], "summary", false⟩,
      ⟨"b", "coder", "r1", "g2", [], [], "summary", false⟩]
     (fun t => if t.task_id == "a" then
         RunnerOutcome.ok ⟨"a", "success", "done", [], "", none⟩
       else RunnerOutcome.timeout) 5
     (by decide) (by decide)
     ⟨⟨[("coder", 2)], [("r1", 2)]⟩, by rfl⟩⟩

/-- The token-limit mode always returns a suffix of its input. -/
theorem compactTokenLimit_eq_drop (ms : List CMessage) (min_messages : Nat) :
    ∃ k, compactTokenLimit ms min_messages = ms.drop k := by
  unfold compactTokenLimit
  split
  · exact ⟨0, by simp⟩
  · exact ⟨(findSafeBoundary ms (ms.length - min_messages)).getD
      (ms.length - min_messages), rfl⟩

/-- Indexing into a suffix. -/
theorem getD_drop_msgs (ms : List CMessage) (k i : Nat) :
    (ms.drop k).getD i default = ms.getD (k + i) default := by
  rw [List.getD_eq_getElem?_getD, List.getD_eq_getElem?_getD, List.getElem?_drop]

/-- Claim C1 counterexample: a 2-message conversation whose assistant
message carries a `tool_use` with no `tool_result` anywhere (an
unanswered tool call). With `min_messages = 1` no safe boundary exists,
the fallback truncation keeps the assistant message, and the output
contains a `tool_use` whose matching `tool_result` is absent — the
claimed pairing fails on this input. -/
theorem c1_claim_counterexample :
    toolPairingOk (compactTokenLimit
      [⟨"user", MContent.str "hi"⟩,
       ⟨"assistant", MContent.blocks [CBlock.tool_use "t"]⟩] 1) = false := by
  decide

set_option linter.unusedVariables false in
/-- Claim C1 (amended): for `min_messages ≥ 1` and a well-formed input
(every `tool_use` answered by a matching `tool_result` in a later user
message), the token-limit compaction output satisfies the pairing
property: every `tool_use` block present in the output has its matching
`tool_result` present in the output. The `min_messages ≥ 1` bound keeps
the embedding within the source's behaviour: with `min_messages ≤ 0` the
Python scan starts at `messages[len(messages)]` and raises `IndexError`. -/
theorem c1_compact_preserves_tool_pairs (ms : List CMessage) (min_messages : Nat)
    (hmin : 1 ≤ min_messages) (hwf : wellFormedMessages ms = true) :
    toolPairingOk (compactTokenLimit ms min_messages) = true := by
  obtain ⟨k, hk⟩ := compactTokenLimit_eq_drop ms min_messages
  rw [hk, toolPairingOk, List.all_eq_true]
  intro i hi
  rw [List.all_eq_true]
  intro tid htid
  rw [List.mem_range] at hi
  rw [getD_drop_msgs] at htid
  have hki : k + i < ms.length := by
    rw [List.length_drop] at hi
    omega
  rw [wellFormedMessages, List.all_eq_true] at hwf
  have hwfi := hwf (k + i) (List.mem_range.mpr hki)
  rw [List.all_eq_true] at hwfi
  have hres := hwfi tid htid
  rw [hasToolResultAfter, resultInSuffix, List.any_eq_true] at hres
  obtain ⟨m, hm, hmp⟩ := hres
  rw [resultPresent, List.any_eq_true]
  refine ⟨m, ?_, ?_⟩
  · have heq : ms.drop (k + i + 1) = (ms.drop k).drop (i + 1) := by
      rw [List.drop_drop]
      have harith : k + i + 1 = k + (i + 1) := by omega
      rw [harith]
    rw [heq] at hm
    exact List.drop_subset (i + 1) (ms.drop k) hm
  · rw [containsUserResult, Bool.and_eq_true] at hmp
    exact hmp.2

/-- Claim C1 witness: the amended theorem applied to the specification's
12-message scenario with `min_messages = 5`; the chosen boundary is
index 7, so the output holds both the `tool_use` message 7 and its
`tool_result` message 8. -/
theorem c1_compact_preserves_tool_pairs_witness :
    (1 ≤ 5 ∧ wellFormedMessages exCompactMessages = true) ∧
    toolPairingOk (compactTokenLimit exCompactMessages 5) = true ∧
    compactTokenLimit exCompactMessages 5 = exCompactMessages.drop 7 :=
  ⟨⟨by decide, by decide⟩,
   c1_compact_preserves_tool_pairs exCompactMessages 5 (by decide) (by decide),
   by decide⟩

/-- Zero fuel and the empty text are fixed points of the resolution scan. -/
theorem resolveFuel_nil (store : List (String × String)) :
    ∀ fr : Nat, resolveFuel store fr [] = [] := by
  intro fr
  cases fr with
  | zero => rfl
  | succ n => rfl

/-- One step of the conversion scan. -/
theorem convertFuel_succ (store : List (String × String)) (n : Nat) (s : List Char) :
    convertFuel store (n + 1) s =
      (if s.isEmpty then s
       else
        match store.find? (fun kv => !kv.2.data.isEmpty && kv.2.data.isPrefixOf s) with
        | some kv => refOf kv.1 ++ convertFuel store n (s.drop kv.2.data.length)
        | none => s.take 1 ++ convertFuel store n (s.drop 1)) := rfl

/-- One step of the resolution scan. -/
theorem resolveFuel_succ (store : List (String × String)) (n : Nat) (s : List Char) :
    resolveFuel store (n + 1) s =
      (if s.isEmpty then s
       else
        match store.find? (fun kv => (refOf kv.1).isPrefixOf s) with
        | some kv => kv.2.data ++ resolveFuel store n (s.drop (refOf kv.1).length)
        | none => s.take 1 ++ resolveFuel store n (s.drop 1)) := rfl

/-- A boolean prefix splits the list. -/
theorem isPrefixOf_eq_append :
    ∀ (p l : List Char), p.isPrefixOf l = true → l = p ++ l.drop p.length := by
  intro p
  induction p with
  | nil => intro l _; simp
  | cons a as ih =>
    intro l h
    cases l with
    | nil => simp [List.isPrefixOf] at h
    | cons b bs =>
      simp only [List.isPrefixOf, Bool.and_eq_true, beq_iff_eq] at h
      have := ih bs h.2
      simp only [List.length_cons, List.drop_succ_cons, List.cons_append]
      rw [h.1, ← this]

/-- A list is a boolean prefix of itself followed by anything. -/
theorem isPrefixOf_self_append :
    ∀ (p t : List Char), p.isPrefixOf (p ++ t) = true := by
  intro p t
  induction p with
  | nil => simp [List.isPrefixOf]
  | cons a as ih => simp [List.isPrefixOf, ih]

/-- Key names never contain a closing brace. -/
theorem validKeyChar_not_close (c : Char) (h : validKeyChar c = true) : c ≠ '\x7d' := by
  intro hc
  rw [hc] at h
  exact absurd h (by decide)

/-- Two valid key names followed by their closing braces can only align
as prefixes when they are equal. -/
theorem validTail_prefix_eq :
    ∀ (A B tail : List Char), A.all validKeyChar = true → B.all validKeyChar = true →
      (A ++ ['\x7d', '\x7d']).isPrefixOf (B ++ '\x7d' :: '\x7d' :: tail) = true →
      A = B := by
  intro A
  induction A with
  | nil =>
    intro B tail _ hB h
    cases B with
    | nil => rfl
    | cons b B2 =>
      exfalso
      simp only [List.nil_append, List.cons_append, List.isPrefixOf,
        Bool.and_eq_true, beq_iff_eq] at h
      rw [List.all_cons, Bool.and_eq_true] at hB
      exact validKeyChar_not_close b hB.1 h.1.symm
  | cons a A2 ih =>
    intro B tail hA hB h
    rw [List.all_cons, Bool.and_eq_true] at hA
    cases B with
    | nil =>
      exfalso
      simp only [List.nil_append, List.cons_append, List.isPrefixOf,
        Bool.and_eq_true, beq_iff_eq] at h
      exact validKeyChar_not_close a hA.1 h.1
    | cons b B2 =>
      rw [List.all_cons, Bool.and_eq_true] at hB
      simp only [List.cons_append, List.isPrefixOf, Bool.and_eq_true, beq_iff_eq] at h
      rw [h.1, ih B2 tail hA.2 hB.2 h.2]

/-- The reference of one valid key is never a prefix of the reference of
a different valid key (followed by anything). -/
theorem refOf_not_prefix (k k' : String) (hk : validKey k = true)
    (hk' : validKey k' = true) (hne : k' ≠ k) (tail : List Char) :
    (refOf k').isPrefixOf (refOf k ++ tail) = false := by
  cases hb : (refOf k').isPrefixOf (refOf k ++ tail) with
  | false => rfl
  | true =>
    exfalso
    have hshape : refOf k ++ tail =
        '\x7b' :: '\x7b' :: (k.data ++ ('\x7d' :: '\x7d' :: tail)) := by
      simp [refOf]
    rw [hshape] at hb
    have h2 : (k'.data ++ ['\x7d', '\x7d']).isPrefixOf
        (k.data ++ '\x7d' :: '\x7d' :: tail) = true := by
      simpa [refOf, List.isPrefixOf] using hb
    rw [validKey, Bool.and_eq_true] at hk hk'
    have := validTail_prefix_eq k'.data k.data tail hk'.2 hk.2 h2
    exact hne (String.ext this)

/-- At a position where the reference of a known key starts, the
resolution scan's entry search finds exactly that entry. -/
theorem find?_refOf :
    ∀ (store : List (String × String)),
      (∀ kv ∈ store, validKey kv.1 = true) →
      (store.map Prod.fst).Nodup →
      ∀ (e : String × String), e ∈ store → ∀ tail : List Char,
        store.find? (fun kv => (refOf kv.1).isPrefixOf (refOf e.1 ++ tail)) = some e := by
  intro store
  induction store with
  | nil => intro _ _ e hmem; cases hmem
  | cons a rest ih =>
    intro hvalid hnodup e hmem tail
    rcases List.mem_cons.mp hmem with heq | hmem2
    · subst heq
      exact List.find?_cons_of_pos _ (isPrefixOf_self_append (refOf e.1) tail)
    · rw [List.map_cons, List.nodup_cons] at hnodup
      have hkey : a.1 ≠ e.1 := by
        intro hcontra
        exact hnodup.1 (hcontra ▸ List.mem_map_of_mem Prod.fst hmem2)
      have hpred : (refOf a.1).isPrefixOf (refOf e.1 ++ tail) = false :=
        refOf_not_prefix e.1 a.1 (hvalid e hmem) (hvalid a (List.mem_cons_self a rest))
          hkey tail
      rw [List.find?_cons_of_neg _ (by simp [hpred])]
      exact ih (fun kv hkv => hvalid kv (List.mem_cons_of_mem a hkv)) hnodup.2
        e hmem2 tail

/-- `takeWhile` swallows a satisfying block and stops at the first
failing element. -/
theorem takeWhile_all_append (p : Char → Bool) :
    ∀ (A : List Char) (b : Char) (B : List Char), A.all p = true → p b = false →
      ((A ++ b :: B).takeWhile p) = A := by
  intro A
  induction A with
  | nil => intro b B _ hb; simp [List.takeWhile_cons, hb]
  | cons a A2 ih =>
    intro b B hA hb
    rw [List.all_cons, Bool.and_eq_true] at hA
    simp [List.takeWhile_cons, hA.1, ih b B hA.2 hb]

/-- `parseRef` recognises the reference of a valid key at the head of a
text. -/
theorem parseRef_refOf (k : String) (hk : validKey k = true) (X : List Char) :
    (parseRef (refOf k ++ X)).isSome = true := by
  rw [validKey, Bool.and_eq_true] at hk
  have hshape : refOf k ++ X =
      '\x7b' :: '\x7b' :: (k.data ++ ('\x7d' :: '\x7d' :: X)) := by
    simp [refOf]
  rw [hshape]
  simp only [parseRef]
  rw [takeWhile_all_append validKeyChar k.data '\x7d' ('\x7d' :: X) hk.2 (by decide)]
  rw [List.drop_left]
  have hne : k.data.isEmpty = false := by simpa using hk.1
  simp [hne]

/-- Unfolding `containsRef` once. -/
theorem containsRef_cons (c : Char) (rest : List Char) :
    containsRef (c :: rest) = ((parseRef (c :: rest)).isSome || containsRef rest) := rfl

/-- Text starting with the reference of a valid key holds a reference. -/
theorem containsRef_refOf_append (k : String) (hk : validKey k = true) (X : List Char) :
    containsRef (refOf k ++ X) = true := by
  have hshape : refOf k ++ X =
      '\x7b' :: '\x7b' :: (k.data ++ ('\x7d' :: '\x7d' :: X)) := by
    simp [refOf]
  rw [hshape, containsRef_cons, Bool.or_eq_true]
  left
  rw [← hshape]
  exact parseRef_refOf k hk X

/-- The conversion scan either changes nothing or leaves at least one
symbolic reference in its output. -/
theorem convertFuel_id_or_ref (store : List (String × String))
    (hvalid : ∀ kv ∈ store, validKey kv.1 = true) :
    ∀ (n : Nat) (t : List Char),
      convertFuel store n t = t ∨ containsRef (convertFuel store n t) = true := by
  intro n
  induction n with
  | zero => intro t; left; rfl
  | succ n ih =>
    intro t
    by_cases ht : t.isEmpty
    · left
      rw [convertFuel_succ, if_pos ht]
    · cases hfind : store.find?
          (fun kv => !kv.2.data.isEmpty && kv.2.data.isPrefixOf t) with
      | some kv =>
        right
        rw [convertFuel_succ, if_neg ht, hfind]
        show containsRef (refOf kv.1 ++ convertFuel store n (t.drop kv.2.data.length)) = true
        exact containsRef_refOf_append kv.1
          (hvalid kv (List.mem_of_find?_eq_some hfind)) _
      | none =>
        obtain ⟨c, rest, rfl⟩ : ∃ c rest, t = c :: rest := by
          cases t with
          | nil => exact absurd rfl ht
          | cons c rest => exact ⟨c, rest, rfl⟩
        rcases ih ((c :: rest).drop 1) with hid | href
        · left
          rw [convertFuel_succ, if_neg ht, hfind]
          show (c :: rest).take 1 ++ convertFuel store n ((c :: rest).drop 1) = c :: rest
          rw [hid]
          exact List.take_append_drop 1 (c :: rest)
        · right
          rw [convertFuel_succ, if_neg ht, hfind]
          show containsRef (c :: convertFuel store n ((c :: rest).drop 1)) = true
          rw [containsRef_cons, Bool.or_eq_true]
          right
          exact href

/-- Round trip of the two scans: on brace-free text, resolving the
conversion output restores the text, for any sufficient fuel. -/
theorem resolveFuel_convertFuel (store : List (String × String))
    (hvalid : ∀ kv ∈ store, validKey kv.1 = true)
    (hnodup : (store.map Prod.fst).Nodup) :
    ∀ (fc : Nat) (t : List Char), t.length ≤ fc → '\x7b' ∉ t →
      ∀ fr : Nat, (convertFuel store fc t).length ≤ fr →
        resolveFuel store fr (convertFuel store fc t) = t := by
  intro fc
  induction fc with
  | zero =>
    intro t hlen _ fr _
    have ht : t = [] := List.eq_nil_of_length_eq_zero (Nat.le_zero.mp hlen)
    subst ht
    exact resolveFuel_nil store fr
  | succ n ih =>
    intro t hlen hbr fr hfr
    by_cases ht : t.isEmpty
    · have ht2 : t = [] := by simpa [List.isEmpty_iff] using ht
      subst ht2
      rw [convertFuel_succ]
      simp only [List.isEmpty_nil, if_true]
      exact resolveFuel_nil store fr
    · cases hfind : store.find? (fun kv => !kv.2.data.isEmpty && kv.2.data.isPrefixOf t) with
      | some kv =>
        have hp := List.find?_some hfind
        rw [Bool.and_eq_true] at hp
        have hvne : kv.2.data ≠ [] := by simpa using hp.1
        have hmem := List.mem_of_find?_eq_some hfind
        have hdecomp : t = kv.2.data ++ t.drop kv.2.data.length :=
          isPrefixOf_eq_append kv.2.data t hp.2
        have hconv : convertFuel store (n + 1) t =
            refOf kv.1 ++ convertFuel store n (t.drop kv.2.data.length) := by
          rw [convertFuel_succ, if_neg ht, hfind]
        have hvlen : 1 ≤ kv.2.data.length := by
          cases hq : kv.2.data with
          | nil => exact absurd hq hvne
          | cons _ _ => simp [hq]
        have hrlen : (t.drop kv.2.data.length).length ≤ n := by
          rw [List.length_drop]
          omega
        have hrbr : '\x7b' ∉ t.drop kv.2.data.length := by
          intro hmm
          exact hbr (List.mem_of_mem_drop hmm)
        rw [hconv]
        rw [hconv] at hfr
        have hreflen : 1 ≤ (refOf kv.1).length := by simp [refOf]
        have happlen : (refOf kv.1 ++ convertFuel store n (t.drop kv.2.data.length)).length =
            (refOf kv.1).length + (convertFuel store n (t.drop kv.2.data.length)).length := by
          simp
        obtain ⟨m, rfl⟩ : ∃ m, fr = m + 1 := ⟨fr - 1, by omega⟩
        have hne2 : (refOf kv.1 ++ convertFuel store n
            (t.drop kv.2.data.length)).isEmpty = false := by
          simp [refOf]
        have hfind2 : store.find? (fun kv2 => (refOf kv2.1).isPrefixOf
            (refOf kv.1 ++ convertFuel store n (t.drop kv.2.data.length))) = some kv :=
          find?_refOf store hvalid hnodup kv hmem _
        have hres : resolveFuel store (m + 1)
            (refOf kv.1 ++ convertFuel store n (t.drop kv.2.data.length)) =
            kv.2.data ++ resolveFuel store m
              ((refOf kv.1 ++ convertFuel store n
                (t.drop kv.2.data.length)).drop (refOf kv.1).length) := by
          rw [resolveFuel_succ, if_neg (by rw [hne2]; exact Bool.false_ne_true), hfind2]
        rw [hres, List.drop_left]
        rw [ih (t.drop kv.2.data.length) hrlen hrbr m (by omega)]
        exact hdecomp.symm
      | none =>
        obtain ⟨c, rest, rfl⟩ : ∃ c rest, t = c :: rest := by
          cases t with
          | nil => exact absurd rfl ht
          | cons c rest => exact ⟨c, rest, rfl⟩
        have hconv : convertFuel store (n + 1) (c :: rest) =
            c :: convertFuel store n rest := by
          rw [convertFuel_succ, if_neg ht, hfind]
          rfl
        have hcnb : c ≠ '\x7b' := by
          intro hcc
          exact hbr (hcc ▸ List.mem_cons_self c rest)
        rw [hconv]
        rw [hconv] at hfr
        have hfr1 : 1 ≤ fr := by
          have : 1 ≤ (c :: convertFuel store n rest).length := by simp
          omega
        obtain ⟨m, rfl⟩ : ∃ m, fr = m + 1 := ⟨fr - 1, by omega⟩
        have hfind2 : store.find? (fun kv => (refOf kv.1).isPrefixOf
            (c :: convertFuel store n rest)) = none := by
          rw [List.find?_eq_none]
          intro kv _
          simp only [refOf, List.isPrefixOf, Bool.and_eq_true, beq_iff_eq]
          rintro ⟨h1, -⟩
          exact hcnb h1.symm
        have hres : resolveFuel store (m + 1) (c :: convertFuel store n rest) =
            c :: resolveFuel store m (convertFuel store n rest) := by
          rw [resolveFuel_succ, if_neg (by simp), hfind2]
          rfl
        rw [hres]
        have hrestlen : rest.length ≤ n := by
          simp only [List.length_cons] at hlen
          omega
        have hconvlen : (convertFuel store n rest).length ≤ m := by
          simp only [List.length_cons] at hfr
          omega
        rw [ih rest hrestlen (fun hmm => hbr (List.mem_cons_of_mem c hmm)) m hconvlen]

/-- Claim C9 counterexample: with the store holding
openai_key = sk-ABC-123, the text consisting of the reference syntax
itself — which embeds no literal secret at all, so every literal secret
in it is (vacuously) known to the store — converts to itself and then
resolves to the secret value, not back to the original text. -/
theorem c9_claim_counterexample :
    ([("openai_key", "sk-ABC-123")].all
      (fun kv => !listContainsSub kv.2.data "\x7b\x7bopenai_key\x7d\x7d".data)) = true ∧
    resolveForExecution [("openai_key", "sk-ABC-123")]
        (convertToSymbolic [("openai_key", "sk-ABC-123")]
          "\x7b\x7bopenai_key\x7d\x7d".data) =
      "sk-ABC-123".data ∧
    "sk-ABC-123".data ≠ "\x7b\x7bopenai_key\x7d\x7d".data := by
  refine ⟨by decide, by decide, by decide⟩

/-- Claim C9 (amended): `resolve_for_execution(convert_to_symbolic(t)) = t`
holds for every text `t` that contains no opening brace (in particular no
symbolic-reference syntax) and is not itself a stored key name, over any
store whose keys match the reference-name syntax and are distinct. -/
theorem c9_secret_round_trip (store : List (String × String)) (t : List Char)
    (hvalid : ∀ kv ∈ store, validKey kv.1 = true)
    (hnodup : (store.map Prod.fst).Nodup)
    (hbr : '\x7b' ∉ t)
    (hnotkey : ∀ kv ∈ store, kv.1.data ≠ t) :
    resolveForExecution store (convertToSymbolic store t) = t := by
  have hcore : resolveFuel store (convertToSymbolic store t).length
      (convertToSymbolic store t) = t :=
    resolveFuel_convertFuel store hvalid hnodup t.length t (le_refl _) hbr _ (le_refl _)
  by_cases hts : t = []
  · subst hts
    rfl
  · unfold resolveForExecution
    by_cases hcr : containsRef (convertToSymbolic store t) = true
    · have hne : (convertToSymbolic store t).isEmpty = false := by
        cases hq : convertToSymbolic store t with
        | nil =>
          rw [hq] at hcr
          exact absurd hcr (by decide)
        | cons _ _ => rfl
      rw [if_neg (by rw [hne]; exact Bool.false_ne_true), if_pos hcr]
      have hrsym : resolveSymbolic store (convertToSymbolic store t) = some t := by
        unfold resolveSymbolic
        rw [if_pos hcr, hcore]
      rw [hrsym]
      show (if t.isEmpty then vaultGetForExecution store (convertToSymbolic store t)
        else t) = t
      rw [if_neg (by simp [List.isEmpty_iff, hts])]
    · have hid : convertToSymbolic store t = t := by
        rcases convertFuel_id_or_ref store hvalid t.length t with h | h
        · exact h
        · exact absurd h hcr
      rw [hid] at hcr ⊢
      rw [if_neg (by simp [List.isEmpty_iff, hts]), if_neg hcr]
      unfold vaultGetForExecution
      have hfind : store.find? (fun kv => kv.1.data == t) = none := by
        rw [List.find?_eq_none]
        intro kv hkv
        simp [hnotkey kv hkv]
      rw [hfind]

/-- Claim C9 witness: the amended theorem applied to the specification's
scenario — store openai_key = sk-ABC-123 and the text
"Authorization: Bearer sk-ABC-123", whose conversion is
"Authorization: Bearer " followed by the symbolic reference, and whose
resolution restores the original. -/
theorem c9_secret_round_trip_witness :
    convertToSymbolic [("openai_key", "sk-ABC-123")]
        "Authorization: Bearer sk-ABC-123".data =
      "Authorization: Bearer \x7b\x7bopenai_key\x7d\x7d".data ∧
    resolveForExecution [("openai_key", "sk-ABC-123")]
        (convertToSymbolic [("openai_key", "sk-ABC-123")]
          "Authorization: Bearer sk-ABC-123".data) =
      "Authorization: Bearer sk-ABC-123".data :=
  ⟨by decide,
   c9_secret_round_trip [("openai_key", "sk-ABC-123")]
     "Authorization: Bearer sk-ABC-123".data
     (by decide) (by decide) (by decide) (by decide)⟩
